import Mathlib

/-!
Verification of the safe expression evaluator of `src/bot.py` (a Telegram
math bot).  The core of the program is `safe_eval`, which parses a text
string with Python's `ast.parse(mode="eval")` and evaluates the resulting
tree with a nested function `_eval` that accepts only numeric literals,
binary operations whose operator is in `ALLOWED_OPERATORS`
(`+ - * / % ** //`), and unary minus; everything else raises, and the
outer `try/except` converts every failure into
`ValueError(f"Invalid expression: {expr}")`.

The embedding below models Python numbers exactly: `int` as `ℤ`, `float`
as `ℚ` (exact arithmetic; IEEE rounding and overflow are idealized away),
and `complex` as a pair of rationals.  Powers with non-integer exponents,
whose exact value is irrational in general, are outside the exact model
(see `pyPow`); no claim settled below depends on them.
-/

/-- A Python numeric value as produced by the evaluator: `int`, `float`
(idealized as an exact rational) or `complex` (a pair of exact rationals). -/
inductive PyVal where
  | vint (n : ℤ)
  | vfloat (q : ℚ)
  | vcomplex (re im : ℚ)
deriving DecidableEq

/-- Is this value a Python `complex`? -/
def PyVal.isComplex : PyVal → Bool
  | .vcomplex _ _ => true
  | _ => false

/-- The rational magnitude of a non-complex value (junk on `complex`,
which every caller excludes first). -/
def PyVal.ratOf : PyVal → ℚ
  | .vint n => (n : ℚ)
  | .vfloat q => q
  | .vcomplex re _ => re

/-- View a value as a complex number (pair of rationals). -/
def PyVal.cOf : PyVal → ℚ × ℚ
  | .vint n => ((n : ℚ), 0)
  | .vfloat q => (q, 0)
  | .vcomplex re im => (re, im)

/-- Python's zero test for a divisor: `0`, `0.0` or `0j`. -/
def PyVal.isZero : PyVal → Bool
  | .vint n => n = 0
  | .vfloat q => q = 0
  | .vcomplex re im => re = 0 && im = 0

/-- Complex multiplication on pairs of rationals. -/
def cmul (a b : ℚ × ℚ) : ℚ × ℚ :=
  (a.1 * b.1 - a.2 * b.2, a.1 * b.2 + a.2 * b.1)

/-- Complex inverse on pairs of rationals (junk at `0`, which callers
exclude first). -/
def cinv (a : ℚ × ℚ) : ℚ × ℚ :=
  let d := a.1 ^ 2 + a.2 ^ 2
  (a.1 / d, -a.2 / d)

/-- Complex division on pairs of rationals. -/
def cdiv (a b : ℚ × ℚ) : ℚ × ℚ := cmul a (cinv b)

/-- Complex natural power by iterated multiplication. -/
def cnpow (z : ℚ × ℚ) : Nat → ℚ × ℚ
  | 0 => (1, 0)
  | n + 1 => cmul z (cnpow z n)

/-- `operator.add` on Python numbers: `int + int` stays `int`, any complex
operand promotes to `complex`, otherwise `float`. -/
def pyAdd (a b : PyVal) : PyVal :=
  match a, b with
  | .vint x, .vint y => .vint (x + y)
  | a, b =>
    if a.isComplex || b.isComplex then
      .vcomplex (a.cOf.1 + b.cOf.1) (a.cOf.2 + b.cOf.2)
    else .vfloat (a.ratOf + b.ratOf)

/-- `operator.sub` on Python numbers. -/
def pySub (a b : PyVal) : PyVal :=
  match a, b with
  | .vint x, .vint y => .vint (x - y)
  | a, b =>
    if a.isComplex || b.isComplex then
      .vcomplex (a.cOf.1 - b.cOf.1) (a.cOf.2 - b.cOf.2)
    else .vfloat (a.ratOf - b.ratOf)

/-- `operator.mul` on Python numbers. -/
def pyMul (a b : PyVal) : PyVal :=
  match a, b with
  | .vint x, .vint y => .vint (x * y)
  | a, b =>
    if a.isComplex || b.isComplex then
      .vcomplex (cmul a.cOf b.cOf).1 (cmul a.cOf b.cOf).2
    else .vfloat (a.ratOf * b.ratOf)

/-- `operator.truediv` on Python numbers: division by zero raises
(`none`); the result is `float` (or `complex` when an operand is). -/
def pyDiv (a b : PyVal) : Option PyVal :=
  if b.isZero then none
  else if a.isComplex || b.isComplex then
    some (.vcomplex (cdiv a.cOf b.cOf).1 (cdiv a.cOf b.cOf).2)
  else some (.vfloat (a.ratOf / b.ratOf))

/-- `operator.mod` on Python numbers: complex operands raise `TypeError`,
a zero divisor raises `ZeroDivisionError` (both `none`); the result has
the sign of the divisor, `a - b * ⌊a / b⌋`. -/
def pyMod (a b : PyVal) : Option PyVal :=
  if a.isComplex || b.isComplex then none
  else if b.isZero then none
  else
    match a, b with
    | .vint x, .vint y => some (.vint (Int.fmod x y))
    | a, b => some (.vfloat (a.ratOf - b.ratOf * (⌊a.ratOf / b.ratOf⌋ : ℤ)))

/-- `operator.floordiv` on Python numbers: complex operands raise
`TypeError`, a zero divisor raises `ZeroDivisionError` (both `none`);
`int // int` is flooring integer division, otherwise `float ⌊a / b⌋`. -/
def pyFloorDiv (a b : PyVal) : Option PyVal :=
  if a.isComplex || b.isComplex then none
  else if b.isZero then none
  else
    match a, b with
    | .vint x, .vint y => some (.vint (Int.fdiv x y))
    | a, b => some (.vfloat ((⌊a.ratOf / b.ratOf⌋ : ℤ) : ℚ))

/-- Exact rational power with an integer exponent; `0` to a negative power
raises `ZeroDivisionError` (`none`). -/
def qpow (x : ℚ) (n : ℤ) : Option ℚ :=
  if x = 0 ∧ n < 0 then none else some (x ^ n)

/-- Complex integer power; `0j` to a negative power raises (`none`). -/
def cpow (z : ℚ × ℚ) (n : ℤ) : Option (ℚ × ℚ) :=
  if 0 ≤ n then some (cnpow z n.toNat)
  else if z.1 = 0 ∧ z.2 = 0 then none
  else some (cnpow (cinv z) (-n).toNat)

/-- The exponent of a Python `**`, when it is an integer-valued `int` or
`float`.  Non-integer exponents produce irrational results in general and
are outside the exact-arithmetic model (`none`). -/
def intExpOf : PyVal → Option ℤ
  | .vint n => some n
  | .vfloat q => if q.den = 1 then some q.num else none
  | .vcomplex _ _ => none

/-- `operator.pow` on Python numbers, on the exactly representable
domain: `int ** nonnegative int` stays `int`, a negative integer exponent
promotes to `float` (raising on base `0`), a complex base with an integer
exponent gives `complex`.  A non-integer or complex exponent generally
produces an irrational value: CPython returns a rounded `float` (or
`complex`) there, which the exact-rational model cannot represent, so
this embedding leaves that region unmodelled (`none`).  No claim settled
below depends on it. -/
def pyPow (a b : PyVal) : Option PyVal :=
  match a, b with
  | .vint x, .vint y =>
    if 0 ≤ y then some (.vint (x ^ y.toNat))
    else if x = 0 then none
    else some (.vfloat ((x : ℚ) ^ y))
  | .vint x, .vfloat q =>
    if q.den = 1 then (qpow (x : ℚ) q.num).map .vfloat else none
  | .vfloat x, .vint y => (qpow x y).map .vfloat
  | .vfloat x, .vfloat q =>
    if q.den = 1 then (qpow x q.num).map .vfloat else none
  | a, b =>
    match intExpOf b with
    | some n => (cpow a.cOf n).map (fun z => .vcomplex z.1 z.2)
    | none => none

/-- `operator.neg` on Python numbers. -/
def pyNeg : PyVal → PyVal
  | .vint n => .vint (-n)
  | .vfloat q => .vfloat (-q)
  | .vcomplex re im => .vcomplex (-re) (-im)

/-- The binary-operator tags of Python's `ast` module that can appear in
an `ast.BinOp` node. -/
inductive BinTag where
  | add | sub | mult | div | mod | pow | floordiv
  | bitor | bitand | bitxor | lshift | rshift | matmult
deriving DecidableEq

/-- The unary-operator tags of Python's `ast` module that can appear in
an `ast.UnaryOp` node. -/
inductive UnTag where
  | usub | uadd | invert | notOp
deriving DecidableEq

/-- Membership of a binary-operator tag in `ALLOWED_OPERATORS`
(src/bot.py lines 33-42): `Add`, `Sub`, `Mult`, `Div`, `Pow`, `Mod`,
`FloorDiv`.  `USub` is the only unary member. -/
def allowedBin : BinTag → Bool
  | .add | .sub | .mult | .div | .mod | .pow | .floordiv => true
  | _ => false

/-- The Python expression AST, restricted to the node shapes the program
can meet: `ast.Expression` (the `mode="eval"` wrapper), numeric constants
(`ast.Num`: `int`, `float` or `complex` — `bool` is excluded by
`ast.Num`'s instance check), `True`/`False`/`None` constants, string
constants, names, calls, attribute access, comparisons, `and`/`or`, and
binary/unary operator nodes. -/
inductive Ast where
  | Expression (body : Ast)
  | Num (v : PyVal)
  | BoolLit (b : Bool)
  | NoneLit
  | Str (s : String)
  | Name (id : String)
  | Call (f : Ast) (args : List Ast)
  | Attribute (obj : Ast) (attr : String)
  | Compare (l r : Ast)
  | BoolOp (l r : Ast)
  | BinOp (l : Ast) (op : BinTag) (r : Ast)
  | UnaryOp (op : UnTag) (e : Ast)

/-- Application of an `ALLOWED_OPERATORS` entry to two values; tags
outside the table are never applied by `_eval` (mapped to `none`). -/
def pyBinOp : BinTag → PyVal → PyVal → Option PyVal
  | .add, a, b => some (pyAdd a b)
  | .sub, a, b => some (pySub a b)
  | .mult, a, b => some (pyMul a b)
  | .div, a, b => pyDiv a b
  | .mod, a, b => pyMod a b
  | .pow, a, b => pyPow a b
  | .floordiv, a, b => pyFloorDiv a b
  | _, _, _ => none

/-- The nested evaluator `_eval` of `safe_eval` (src/bot.py lines 52-65):
unwraps `ast.Expression`, returns the value of an `ast.Num`, applies an
allowed binary operator to the recursively evaluated operands, applies an
allowed unary operator (only `USub`, i.e. `operator.neg`), and raises
`ValueError("Unsupported expression")` on everything else.  A raised
exception is modelled as `none`. -/
def pyEvalNode : Ast → Option PyVal
  | .Expression body => pyEvalNode body
  | .Num v => some v
  | .BinOp l op r =>
    if allowedBin op then
      match pyEvalNode l with
      | some lv =>
        match pyEvalNode r with
        | some rv => pyBinOp op lv rv
        | none => none
      | none => none
    else none
  | .UnaryOp op e =>
    if op = UnTag.usub then
      match pyEvalNode e with
      | some v => some (pyNeg v)
      | none => none
    else none
  | _ => none

/-- Every node reachable by `pyEvalNode` has one of the accepted shapes:
the `Expression` wrapper, a numeric literal, a `BinOp` whose operator is
in `ALLOWED_OPERATORS`, or unary minus. -/
def treeOK : Ast → Bool
  | .Expression body => treeOK body
  | .Num _ => true
  | .BinOp l op r => allowedBin op && treeOK l && treeOK r
  | .UnaryOp op e => (op = UnTag.usub) && treeOK e
  | _ => false

/-- The tree contains, anywhere, one of the constructs named by the spec's
safety property: an identifier, a function call, an attribute access, a
string literal, a boolean operator (`and`/`or` as `ast.BoolOp`, `not` as
`ast.UnaryOp` with `ast.Not`) or a comparison. -/
def containsForbidden : Ast → Bool
  | .Expression body => containsForbidden body
  | .Num _ => false
  | .BoolLit _ => false
  | .NoneLit => false
  | .Str _ => true
  | .Name _ => true
  | .Call _ _ => true
  | .Attribute _ _ => true
  | .Compare _ _ => true
  | .BoolOp _ _ => true
  | .BinOp l _ r => containsForbidden l || containsForbidden r
  | .UnaryOp op e => op = UnTag.notOp || containsForbidden e

/-- The tree contains, anywhere, an operator node outside the allowed
table: a `BinOp` whose tag is not in `ALLOWED_OPERATORS`, or a unary
operator other than minus. -/
def containsBadOp : Ast → Bool
  | .Expression body => containsBadOp body
  | .BinOp l op r => !allowedBin op || containsBadOp l || containsBadOp r
  | .UnaryOp op e => !(op = UnTag.usub) || containsBadOp e
  | .Call f args => containsBadOp f || args.attach.any (fun a => containsBadOp a.1)
  | .Attribute obj _ => containsBadOp obj
  | .Compare l r => containsBadOp l || containsBadOp r
  | .BoolOp l r => containsBadOp l || containsBadOp r
  | _ => false
decreasing_by
all_goals simp_wf
all_goals try omega
have := List.sizeOf_lt_of_mem a.2
omega

/-- The tree contains, anywhere, a boolean literal `True` or `False`. -/
def containsBool : Ast → Bool
  | .Expression body => containsBool body
  | .BoolLit _ => true
  | .BinOp l _ r => containsBool l || containsBool r
  | .UnaryOp _ e => containsBool e
  | .Call f args => containsBool f || args.attach.any (fun a => containsBool a.1)
  | .Attribute obj _ => containsBool obj
  | .Compare l r => containsBool l || containsBool r
  | .BoolOp l r => containsBool l || containsBool r
  | _ => false
decreasing_by
all_goals simp_wf
all_goals try omega
have := List.sizeOf_lt_of_mem a.2
omega

/-- The tree contains, anywhere, a division, modulo or integer division
whose right operand evaluates to zero. -/
def zeroDivAt : Ast → Bool
  | .Expression body => zeroDivAt body
  | .BinOp l op r =>
    zeroDivAt l || zeroDivAt r ||
      ((op = BinTag.div || op = BinTag.mod || op = BinTag.floordiv) &&
        (match pyEvalNode r with
         | some v => v.isZero
         | none => false))
  | .UnaryOp _ e => zeroDivAt e
  | _ => false

/-- The operator set of the spec's `BinaryOp` Syntax Node (§3). -/
inductive SpecOp where
  | add | subtract | multiply | divide | modulo | power | intdivide
deriving DecidableEq

/-- Modelled from the spec (§3 Data Model): the restricted Syntax Node,
"a tagged variant with exactly these shapes": a literal number, a binary
operation from the allowed set, or unary negation. -/
inductive SyntaxNode where
  | Literal (v : ℚ)
  | BinaryOp (op : SpecOp) (l r : SyntaxNode)
  | UnaryOp (e : SyntaxNode)

/-- The spec's name for each allowed source operator tag. -/
def specOpOf : BinTag → Option SpecOp
  | .add => some .add
  | .sub => some .subtract
  | .mult => some .multiply
  | .div => some .divide
  | .mod => some .modulo
  | .pow => some .power
  | .floordiv => some .intdivide
  | _ => none

/-- Modelled from the spec (§4.1 step 2): the translation pass that walks
the generic parse tree and accepts only numeric literals (real ones — the
spec's Literal holds a single signed number), allowed binary operators and
unary minus, rejecting every other node shape. -/
def translateNode : Ast → Option SyntaxNode
  | .Expression body => translateNode body
  | .Num (.vint n) => some (.Literal (n : ℚ))
  | .Num (.vfloat q) => some (.Literal q)
  | .BinOp l op r =>
    match specOpOf op, translateNode l, translateNode r with
    | some so, some sl, some sr => some (.BinaryOp so sl sr)
    | _, _, _ => none
  | .UnaryOp .usub e => (translateNode e).map .UnaryOp
  | _ => none

/-- Modelled from the spec (§4.1 steps 3-4): the mathematical meaning of
each allowed operator on exact numbers — division, modulo and integer
division fail on a zero divisor; modulo is `a - b⌊a/b⌋` and integer
division is `⌊a/b⌋`; a power with an integer exponent is the exact rational
power (zero to a negative power fails), and a non-integer exponent is
outside the exact-arithmetic model. -/
def specBinOp : SpecOp → ℚ → ℚ → Option ℚ
  | .add, a, b => some (a + b)
  | .subtract, a, b => some (a - b)
  | .multiply, a, b => some (a * b)
  | .divide, a, b => if b = 0 then none else some (a / b)
  | .modulo, a, b => if b = 0 then none else some (a - b * (⌊a / b⌋ : ℤ))
  | .intdivide, a, b => if b = 0 then none else some ((⌊a / b⌋ : ℤ) : ℚ)
  | .power, a, b =>
    if b.den = 1 then
      if a = 0 ∧ b.num < 0 then none else some (a ^ b.num)
    else none

/-- Modelled from the spec (§4.1 step 3): recursive evaluation of the
restricted Syntax Node tree — a Literal returns its value, UnaryOp negates
its evaluated operand, BinaryOp applies the operator to its two evaluated
operands. -/
def specEval : SyntaxNode → Option ℚ
  | .Literal v => some v
  | .UnaryOp e => (specEval e).map (fun q => -q)
  | .BinaryOp op l r =>
    match specEval l, specEval r with
    | some a, some b => specBinOp op a b
    | _, _ => none

/-- The rational reading of a non-complex Python value. -/
def pyToRat : PyVal → Option ℚ
  | .vint n => some (n : ℚ)
  | .vfloat q => some q
  | .vcomplex _ _ => none

/-- The tokens of the expression grammar. -/
inductive Tok where
  | num (v : PyVal)
  | ident (s : String)
  | str (s : String)
  | plus | minus | star | slash | dslash | percent | dstar
  | lparen | rparen
  | pipe | amp | caret | lshiftT | rshiftT | at | tilde
  | lt | gt | le | ge | eqeq | neq
  | andT | orT | notT | trueT | falseT | noneT
  | dot | comma | semicolon
deriving DecidableEq

/-- Whitespace characters skipped by the tokenizer. -/
def isWS (c : Char) : Bool :=
  c = ' ' || c = '\t' || c = '\n' || c = '\r'

/-- Decimal digit test. -/
def isDigitC (c : Char) : Bool :=
  '0' ≤ c && c ≤ '9'

/-- First character of an identifier. -/
def isIdentStart (c : Char) : Bool :=
  c.isAlpha || c = '_'

/-- Continuation character of an identifier. -/
def isIdentChar (c : Char) : Bool :=
  isIdentStart c || isDigitC c

/-- The natural number denoted by a list of decimal digits. -/
def digitsVal (ds : List Char) : ℕ :=
  ds.foldl (fun a c => a * 10 + (c.toNat - 48)) 0

/-- Modelled from the spec (numeric literals of the expression grammar):
reads a decimal integer or decimal-point literal, with Python's imaginary
suffix `j`/`J` making the value complex.  Returns the value and the
remaining characters.  (Hexadecimal and exponent notations are not
modelled; no claim involves them.) -/
def readNum (cs : List Char) : PyVal × List Char :=
  let ds := cs.takeWhile isDigitC
  let r1 := cs.dropWhile isDigitC
  let withFrac : Bool × ℚ × List Char :=
    match r1 with
    | '.' :: rest =>
      let fs := rest.takeWhile isDigitC
      let r2 := rest.dropWhile isDigitC
      (true, (digitsVal ds : ℚ) + (digitsVal fs : ℚ) / ((10 : ℚ) ^ fs.length), r2)
    | _ => (false, (digitsVal ds : ℚ), r1)
  match withFrac with
  | (isF, q, r2) =>
    match r2 with
    | 'j' :: r3 => (.vcomplex 0 q, r3)
    | 'J' :: r3 => (.vcomplex 0 q, r3)
    | _ => (if isF then .vfloat q else .vint (digitsVal ds : ℤ), r2)

/-- Reads a string literal after its opening quote `q`, up to the closing
quote; `none` when unterminated. -/
def readStr (q : Char) (cs : List Char) : Option (String × List Char) :=
  match cs.dropWhile (fun c => !(c = q)) with
  | _ :: rest => some ((cs.takeWhile (fun c => !(c = q))).asString, rest)
  | [] => none

/-- Keyword recognition: `True`, `False`, `None`, `and`, `or`, `not` are
keyword tokens, every other word is an identifier. -/
def keywordTok (s : String) : Tok :=
  if s = "True" then .trueT
  else if s = "False" then .falseT
  else if s = "None" then .noneT
  else if s = "and" then .andT
  else if s = "or" then .orT
  else if s = "not" then .notT
  else .ident s

/-- One tokenization step on a non-whitespace character `c` followed by
`cs`: the token it starts and the remaining characters.  Unknown
characters (including `=`, `!` not followed by `=`, and brackets) fail,
as does an unterminated string literal. -/
def tokStep (c : Char) (cs : List Char) : Option (Tok × List Char) :=
  if isDigitC c then
    match readNum (c :: cs) with
    | (v, rest) => some (Tok.num v, rest)
  else if c = '.' then
    match cs with
    | d :: _ =>
      if isDigitC d then
        match readNum (c :: cs) with
        | (v, rest) => some (Tok.num v, rest)
      else some (Tok.dot, cs)
    | [] => some (Tok.dot, [])
  else if isIdentStart c then
    some (keywordTok ((c :: cs).takeWhile isIdentChar).asString,
      (c :: cs).dropWhile isIdentChar)
  else if c = '\'' || c = '"' then
    match readStr c cs with
    | some (s, rest) => some (Tok.str s, rest)
    | none => none
  else if c = '*' then
    match cs with
    | '*' :: rest => some (Tok.dstar, rest)
    | _ => some (Tok.star, cs)
  else if c = '/' then
    match cs with
    | '/' :: rest => some (Tok.dslash, rest)
    | _ => some (Tok.slash, cs)
  else if c = '<' then
    match cs with
    | '<' :: rest => some (Tok.lshiftT, rest)
    | '=' :: rest => some (Tok.le, rest)
    | _ => some (Tok.lt, cs)
  else if c = '>' then
    match cs with
    | '>' :: rest => some (Tok.rshiftT, rest)
    | '=' :: rest => some (Tok.ge, rest)
    | _ => some (Tok.gt, cs)
  else if c = '=' then
    match cs with
    | '=' :: rest => some (Tok.eqeq, rest)
    | _ => none
  else if c = '!' then
    match cs with
    | '=' :: rest => some (Tok.neq, rest)
    | _ => none
  else if c = '+' then some (Tok.plus, cs)
  else if c = '-' then some (Tok.minus, cs)
  else if c = '%' then some (Tok.percent, cs)
  else if c = '(' then some (Tok.lparen, cs)
  else if c = ')' then some (Tok.rparen, cs)
  else if c = '|' then some (Tok.pipe, cs)
  else if c = '&' then some (Tok.amp, cs)
  else if c = '^' then some (Tok.caret, cs)
  else if c = '@' then some (Tok.at, cs)
  else if c = '~' then some (Tok.tilde, cs)
  else if c = ',' then some (Tok.comma, cs)
  else if c = ';' then some (Tok.semicolon, cs)
  else none

/-- Modelled from the spec (step 1, the standard expression tokenizer):
tokenize a character list, skipping whitespace; each step consumes at
least one character, with `fuel` bounding the number of steps. -/
def tokAux : ℕ → List Char → Option (List Tok)
  | _, [] => some []
  | 0, _ :: _ => none
  | fuel + 1, c :: cs =>
    if isWS c then tokAux fuel cs
    else
      match tokStep c cs with
      | some (t, rest) => (tokAux fuel rest).map (t :: ·)
      | none => none

/-- Modelled from the spec (step 1): tokenize the input string. -/
def tokenize (s : String) : Option (List Tok) :=
  tokAux (s.length + 1) s.data

/-- The left-associative binary grammar levels, from loosest to tightest:
`or` (0), `and` (1), comparisons (3), `|` (4), `^` (5), `&` (6), shifts
(7), `+ -` (8), `* / // % @` (9).  (Level 2 is `not`, level 10 unary
sign, level 11 the right-associative `**`, level 12 atoms and trailers.)
Gives the node combiner a token builds at a level, or `none`. -/
def levelOp : ℕ → Tok → Option (Ast → Ast → Ast)
  | 0, .orT => some .BoolOp
  | 1, .andT => some .BoolOp
  | 3, .lt => some .Compare
  | 3, .gt => some .Compare
  | 3, .le => some .Compare
  | 3, .ge => some .Compare
  | 3, .eqeq => some .Compare
  | 3, .neq => some .Compare
  | 4, .pipe => some (fun a b => .BinOp a .bitor b)
  | 5, .caret => some (fun a b => .BinOp a .bitxor b)
  | 6, .amp => some (fun a b => .BinOp a .bitand b)
  | 7, .lshiftT => some (fun a b => .BinOp a .lshift b)
  | 7, .rshiftT => some (fun a b => .BinOp a .rshift b)
  | 8, .plus => some (fun a b => .BinOp a .add b)
  | 8, .minus => some (fun a b => .BinOp a .sub b)
  | 9, .star => some (fun a b => .BinOp a .mult b)
  | 9, .slash => some (fun a b => .BinOp a .div b)
  | 9, .dslash => some (fun a b => .BinOp a .floordiv b)
  | 9, .percent => some (fun a b => .BinOp a .mod b)
  | 9, .at => some (fun a b => .BinOp a .matmult b)
  | _, _ => none

mutual

/-- Modelled from the spec (step 1, conventional precedence and
associativity): the recursive-descent parser, one function per grammar
level, on `fuel`. -/
def pLevel : ℕ → ℕ → List Tok → Option (Ast × List Tok)
  | 0, _, _ => none
  | fuel + 1, lvl, ts =>
    if lvl = 2 then
      match ts with
      | .notT :: ts1 =>
        (pLevel fuel 2 ts1).map (fun r => (.UnaryOp .notOp r.1, r.2))
      | _ => pLevel fuel 3 ts
    else if lvl = 10 then
      match ts with
      | .minus :: ts1 =>
        (pLevel fuel 10 ts1).map (fun r => (.UnaryOp .usub r.1, r.2))
      | .plus :: ts1 =>
        (pLevel fuel 10 ts1).map (fun r => (.UnaryOp .uadd r.1, r.2))
      | .tilde :: ts1 =>
        (pLevel fuel 10 ts1).map (fun r => (.UnaryOp .invert r.1, r.2))
      | _ => pLevel fuel 11 ts
    else if lvl = 11 then
      match pLevel fuel 12 ts with
      | some (a, .dstar :: ts1) =>
        (pLevel fuel 10 ts1).map (fun r => (.BinOp a .pow r.1, r.2))
      | some (a, ts1) => some (a, ts1)
      | none => none
    else if lvl = 12 then
      match pAtom fuel ts with
      | some (a, ts1) => pTrail fuel a ts1
      | none => none
    else if lvl ≤ 9 then
      match pLevel fuel (lvl + 1) ts with
      | some (a, ts1) => pLoop fuel lvl a ts1
      | none => none
    else none

/-- The left-associative operator loop of a binary grammar level. -/
def pLoop : ℕ → ℕ → Ast → List Tok → Option (Ast × List Tok)
  | 0, _, _, _ => none
  | fuel + 1, lvl, a, ts =>
    match ts with
    | t :: ts1 =>
      match levelOp lvl t with
      | some comb =>
        match pLevel fuel (lvl + 1) ts1 with
        | some (b, ts2) => pLoop fuel lvl (comb a b) ts2
        | none => none
      | none => some (a, ts)
    | [] => some (a, [])

/-- An atom: a literal, a name, a string, or a parenthesized expression. -/
def pAtom : ℕ → List Tok → Option (Ast × List Tok)
  | 0, _ => none
  | fuel + 1, ts =>
    match ts with
    | .num v :: r => some (.Num v, r)
    | .trueT :: r => some (.BoolLit true, r)
    | .falseT :: r => some (.BoolLit false, r)
    | .noneT :: r => some (.NoneLit, r)
    | .ident s :: r => some (.Name s, r)
    | .str s :: r => some (.Str s, r)
    | .lparen :: r =>
      match pLevel fuel 0 r with
      | some (a, .rparen :: r1) => some (a, r1)
      | _ => none
    | _ => none

/-- Attribute-access and call trailers after an atom. -/
def pTrail : ℕ → Ast → List Tok → Option (Ast × List Tok)
  | 0, _, _ => none
  | fuel + 1, a, ts =>
    match ts with
    | .dot :: .ident s :: r => pTrail fuel (.Attribute a s) r
    | .lparen :: .rparen :: r => pTrail fuel (.Call a []) r
    | .lparen :: r =>
      match pLevel fuel 0 r with
      | some (arg, r1) => pArgs fuel a [arg] r1
      | none => none
    | _ => some (a, ts)

/-- Remaining call arguments after the first, up to the closing paren. -/
def pArgs : ℕ → Ast → List Ast → List Tok → Option (Ast × List Tok)
  | 0, _, _, _ => none
  | fuel + 1, f, acc, ts =>
    match ts with
    | .rparen :: r => pTrail fuel (.Call f acc.reverse) r
    | .comma :: r =>
      match pLevel fuel 0 r with
      | some (arg, r1) => pArgs fuel f (arg :: acc) r1
      | none => none
    | _ => none

end

/-- Modelled from the spec (step 1): `ast.parse(expr, mode="eval")` —
tokenize, parse a complete expression with conventional precedence and
associativity, require all input consumed, and wrap the result in the
`ast.Expression` node.  `none` is a `SyntaxError`. -/
def parseExpr (s : String) : Option Ast :=
  match tokenize s with
  | none => none
  | some ts =>
    match pLevel ((ts.length + 2) * 16) 0 ts with
    | some (a, []) => some (.Expression a)
    | _ => none

/-- `safe_eval` (src/bot.py lines 44-69): parse the input in `eval` mode,
evaluate the tree with `_eval`, and convert any raised exception into
`ValueError(f"Invalid expression: {expr}")`, modelled as
`Except.error ("Invalid expression: " ++ expr)`. -/
def safe_eval (expr : String) : Except String PyVal :=
  match parseExpr expr with
  | none => .error ("Invalid expression: " ++ expr)
  | some node =>
    match pyEvalNode node with
    | some v => .ok v
    | none => .error ("Invalid expression: " ++ expr)

/-- Structural induction for `Ast`, with no hypothesis on call arguments
(the evaluator rejects every `Call` without looking at them). -/
theorem Ast.inductionOn {motive : Ast → Prop}
    (Expression : ∀ b, motive b → motive (.Expression b))
    (Num : ∀ v, motive (.Num v))
    (BoolLit : ∀ b, motive (.BoolLit b))
    (NoneLit : motive .NoneLit)
    (Str : ∀ s, motive (.Str s))
    (Name : ∀ s, motive (.Name s))
    (Call : ∀ f args, motive (.Call f args))
    (Attribute : ∀ o s, motive (.Attribute o s))
    (Compare : ∀ l r, motive (.Compare l r))
    (BoolOp : ∀ l r, motive (.BoolOp l r))
    (BinOp : ∀ l op r, motive l → motive r → motive (.BinOp l op r))
    (UnaryOp : ∀ op e, motive e → motive (.UnaryOp op e)) :
    ∀ a, motive a
  | .Expression b =>
    Expression b
      (Ast.inductionOn Expression Num BoolLit NoneLit Str Name Call Attribute
        Compare BoolOp BinOp UnaryOp b)
  | .Num v => Num v
  | .BoolLit b => BoolLit b
  | .NoneLit => NoneLit
  | .Str s => Str s
  | .Name s => Name s
  | .Call f args => Call f args
  | .Attribute o s => Attribute o s
  | .Compare l r => Compare l r
  | .BoolOp l r => BoolOp l r
  | .BinOp l op r =>
    BinOp l op r
      (Ast.inductionOn Expression Num BoolLit NoneLit Str Name Call Attribute
        Compare BoolOp BinOp UnaryOp l)
      (Ast.inductionOn Expression Num BoolLit NoneLit Str Name Call Attribute
        Compare BoolOp BinOp UnaryOp r)
  | .UnaryOp op e =>
    UnaryOp op e
      (Ast.inductionOn Expression Num BoolLit NoneLit Str Name Call Attribute
        Compare BoolOp BinOp UnaryOp e)

/-- A tree containing one of the spec's forbidden constructs evaluates to
an exception. -/
theorem eval_none_of_containsForbidden (a : Ast)
    (h : containsForbidden a = true) : pyEvalNode a = none := by
  induction a using Ast.inductionOn with
  | Expression body ih => simp_all [containsForbidden, pyEvalNode]
  | Num v => simp_all [containsForbidden]
  | BoolLit b => simp [pyEvalNode]
  | NoneLit => simp [pyEvalNode]
  | Str s => simp [pyEvalNode]
  | Name s => simp [pyEvalNode]
  | Call f args => simp [pyEvalNode]
  | Attribute o s => simp [pyEvalNode]
  | Compare l r => simp [pyEvalNode]
  | BoolOp l r => simp [pyEvalNode]
  | BinOp l op r ihl ihr =>
    simp only [containsForbidden, Bool.or_eq_true] at h
    simp only [pyEvalNode]
    rcases h with h | h
    · rw [ihl h]; cases allowedBin op <;> simp
    · rw [ihr h]; cases allowedBin op <;> cases pyEvalNode l <;> simp
  | UnaryOp op e ih =>
    simp only [containsForbidden, Bool.or_eq_true, decide_eq_true_eq] at h
    simp only [pyEvalNode]
    rcases h with h | h
    · subst h
      simp
    · rw [ih h]
      by_cases hop : op = UnTag.usub <;> simp [hop]

/-- A tree containing an operator outside the allowed table evaluates to
an exception. -/
theorem eval_none_of_containsBadOp (a : Ast)
    (h : containsBadOp a = true) : pyEvalNode a = none := by
  induction a using Ast.inductionOn with
  | Expression body ih => simp_all [containsBadOp, pyEvalNode]
  | Num v => simp_all [containsBadOp]
  | BoolLit b => simp [pyEvalNode]
  | NoneLit => simp [pyEvalNode]
  | Str s => simp [pyEvalNode]
  | Name s => simp [pyEvalNode]
  | Call f args => simp [pyEvalNode]
  | Attribute o s => simp [pyEvalNode]
  | Compare l r => simp [pyEvalNode]
  | BoolOp l r => simp [pyEvalNode]
  | BinOp l op r ihl ihr =>
    simp only [containsBadOp, Bool.or_eq_true, Bool.not_eq_true'] at h
    simp only [pyEvalNode]
    rcases h with (h | h) | h
    · simp [h]
    · rw [ihl h]; cases allowedBin op <;> simp
    · rw [ihr h]; cases allowedBin op <;> cases pyEvalNode l <;> simp
  | UnaryOp op e ih =>
    simp only [containsBadOp, Bool.or_eq_true, Bool.not_eq_true',
      decide_eq_false_iff_not] at h
    simp only [pyEvalNode]
    rcases h with h | h
    · simp [h]
    · rw [ih h]
      by_cases hop : op = UnTag.usub <;> simp [hop]

/-- A tree containing a boolean literal evaluates to an exception:
`True` and `False` are `ast.Constant` nodes that `ast.Num`'s instance
check rejects, so `_eval` falls through to `raise`. -/
theorem eval_none_of_containsBool (a : Ast)
    (h : containsBool a = true) : pyEvalNode a = none := by
  induction a using Ast.inductionOn with
  | Expression body ih => simp_all [containsBool, pyEvalNode]
  | Num v => simp_all [containsBool]
  | BoolLit b => simp [pyEvalNode]
  | NoneLit => simp [pyEvalNode]
  | Str s => simp [pyEvalNode]
  | Name s => simp [pyEvalNode]
  | Call f args => simp [pyEvalNode]
  | Attribute o s => simp [pyEvalNode]
  | Compare l r => simp [pyEvalNode]
  | BoolOp l r => simp [pyEvalNode]
  | BinOp l op r ihl ihr =>
    simp only [containsBool, Bool.or_eq_true] at h
    simp only [pyEvalNode]
    rcases h with h | h
    · rw [ihl h]; cases allowedBin op <;> simp
    · rw [ihr h]; cases allowedBin op <;> cases pyEvalNode l <;> simp
  | UnaryOp op e ih =>
    simp only [containsBool] at h
    simp only [pyEvalNode]
    rw [ih h]
    by_cases hop : op = UnTag.usub <;> simp [hop]

/-- Applying division, modulo or integer division to a zero divisor
raises, whatever the left operand. -/
theorem pyBinOp_zero_divisor (op : BinTag) (u v : PyVal)
    (hop : op = BinTag.div ∨ op = BinTag.mod ∨ op = BinTag.floordiv)
    (hz : v.isZero = true) : pyBinOp op u v = none := by
  rcases hop with h | h | h <;> subst h
  · simp [pyBinOp, pyDiv, hz]
  · simp only [pyBinOp, pyMod, hz]
    by_cases hc : (u.isComplex || v.isComplex) = true <;> simp [hc]
  · simp only [pyBinOp, pyFloorDiv, hz]
    by_cases hc : (u.isComplex || v.isComplex) = true <;> simp [hc]

/-- A tree containing a division, modulo or integer division by zero
evaluates to an exception. -/
theorem eval_none_of_zeroDivAt (a : Ast)
    (h : zeroDivAt a = true) : pyEvalNode a = none := by
  induction a using Ast.inductionOn with
  | Expression body ih => simp_all [zeroDivAt, pyEvalNode]
  | Num v => simp_all [zeroDivAt]
  | BoolLit b => simp [pyEvalNode]
  | NoneLit => simp [pyEvalNode]
  | Str s => simp [pyEvalNode]
  | Name s => simp [pyEvalNode]
  | Call f args => simp [pyEvalNode]
  | Attribute o s => simp [pyEvalNode]
  | Compare l r => simp [pyEvalNode]
  | BoolOp l r => simp [pyEvalNode]
  | BinOp l op r ihl ihr =>
    simp only [zeroDivAt, Bool.or_eq_true, Bool.and_eq_true] at h
    simp only [pyEvalNode]
    rcases h with (h | h) | ⟨hop, hz⟩
    · rw [ihl h]; cases allowedBin op <;> simp
    · rw [ihr h]; cases allowedBin op <;> cases pyEvalNode l <;> simp
    · cases hr : pyEvalNode r with
      | none => cases allowedBin op <;> cases pyEvalNode l <;> simp
      | some v =>
        rw [hr] at hz
        have hop' : op = BinTag.div ∨ op = BinTag.mod ∨ op = BinTag.floordiv := by
          rcases hop with (h | h) | h
          · exact Or.inl (by simpa using h)
          · exact Or.inr (Or.inl (by simpa using h))
          · exact Or.inr (Or.inr (by simpa using h))
        have hall : allowedBin op = true := by
          rcases hop' with h | h | h <;> simp [h, allowedBin]
        simp only [hall, if_true]
        cases pyEvalNode l with
        | none => rfl
        | some lv => simp [hr, pyBinOp_zero_divisor op lv v hop' hz]
  | UnaryOp op e ih =>
    simp only [zeroDivAt] at h
    simp only [pyEvalNode]
    rw [ih h]
    by_cases hop : op = UnTag.usub <;> simp [hop]

/-- Tokenizing the empty character list yields no tokens. -/
theorem tokAux_nil (fuel : ℕ) : tokAux fuel [] = some [] := by
  cases fuel <;> rfl

/-- Tokenizing a whitespace-only character list yields no tokens. -/
theorem tokAux_ws : ∀ (fuel : ℕ) (cs : List Char), cs.length ≤ fuel →
    (∀ c ∈ cs, isWS c = true) → tokAux fuel cs = some []
  | fuel, [], _, _ => tokAux_nil fuel
  | 0, _ :: _, hlen, _ => by simp at hlen
  | fuel + 1, c :: cs, hlen, hws => by
    have hc : isWS c = true := hws c (by simp)
    simp only [tokAux, hc, if_true]
    exact tokAux_ws fuel cs (by simpa using hlen) (fun x hx => hws x (by simp [hx]))

/-- The atom parser fails on an empty token list. -/
theorem pAtom_nil (fuel : ℕ) : pAtom fuel [] = none := by
  cases fuel <;> rfl

/-- Every grammar level fails on an empty token list. -/
theorem pLevel_nil (fuel : ℕ) : ∀ lvl, pLevel fuel lvl [] = none := by
  induction fuel with
  | zero => intro lvl; rfl
  | succ f ih =>
    intro lvl
    by_cases h2 : lvl = 2
    · simp [pLevel, h2, ih 3]
    · by_cases h10 : lvl = 10
      · simp [pLevel, h2, h10, ih 11]
      · by_cases h11 : lvl = 11
        · simp [pLevel, h2, h10, h11, ih 12]
        · by_cases h12 : lvl = 12
          · simp [pLevel, h2, h10, h11, h12, pAtom_nil]
          · by_cases h9 : lvl ≤ 9
            · simp [pLevel, h2, h10, h11, h12, h9, ih (lvl + 1)]
            · simp [pLevel, h2, h10, h11, h12, h9]

/-- A whitespace-only (in particular empty) input fails to parse. -/
theorem parseExpr_ws (s : String) (hws : ∀ c ∈ s.data, isWS c = true) :
    parseExpr s = none := by
  have htok : tokenize s = some [] :=
    tokAux_ws (s.length + 1) s.data (Nat.le_succ _) hws
  simp [parseExpr, htok, pLevel_nil]

/-- Flooring division is unchanged by negating both arguments. -/
theorem fdiv_neg_neg (a b : ℤ) (hb : b ≠ 0) : (-a).fdiv (-b) = a.fdiv b := by
  rcases a with (_ | m) | m <;> rcases b with (_ | n) | n <;>
    first
      | rfl
      | exact absurd rfl hb

/-- `Int.fdiv` is the floor of the rational quotient (positive divisor). -/
theorem fdiv_eq_floor_pos (a b : ℤ) (hb : 0 < b) :
    a.fdiv b = ⌊(a : ℚ) / (b : ℚ)⌋ := by
  have h3 : (b.toNat : ℤ) = b := Int.toNat_of_nonneg hb.le
  have h4 := Rat.floor_intCast_div_natCast a b.toNat
  have h5 : ((b.toNat : ℕ) : ℚ) = (b : ℚ) := by
    exact_mod_cast congrArg (fun z : ℤ => (z : ℚ)) h3
  rw [h5] at h4
  rw [Int.fdiv_eq_ediv _ hb.le, h4, h3]

/-- `Int.fdiv` is the floor of the rational quotient. -/
theorem fdiv_eq_floor (a b : ℤ) (hb : b ≠ 0) :
    a.fdiv b = ⌊(a : ℚ) / (b : ℚ)⌋ := by
  rcases lt_or_gt_of_ne hb with hneg | hpos
  · calc a.fdiv b = (-a).fdiv (-b) := (fdiv_neg_neg a b hb).symm
    _ = ⌊((-a : ℤ) : ℚ) / ((-b : ℤ) : ℚ)⌋ := fdiv_eq_floor_pos (-a) (-b) (by omega)
    _ = ⌊(a : ℚ) / (b : ℚ)⌋ := by push_cast; rw [neg_div_neg_eq]
  · exact fdiv_eq_floor_pos a b hpos

/-- `Int.fmod` agrees with the spec's `a - b⌊a/b⌋`. -/
theorem fmod_eq_floor (a b : ℤ) (hb : b ≠ 0) :
    ((a.fmod b : ℤ) : ℚ) = (a : ℚ) - (b : ℚ) * (⌊(a : ℚ) / (b : ℚ)⌋ : ℤ) := by
  rw [Int.fmod_def, ← fdiv_eq_floor a b hb]
  push_cast
  ring

/-- Casting an integer power to the rationals. -/
theorem intPow_cast (m n : ℤ) (hn : 0 ≤ n) :
    ((m ^ n.toNat : ℤ) : ℚ) = (m : ℚ) ^ n := by
  have h := zpow_natCast (m : ℚ) n.toNat
  rw [Int.toNat_of_nonneg hn] at h
  rw [h]
  push_cast
  ring

/-- Each `ALLOWED_OPERATORS` entry, on non-complex operands, computes the
value the spec assigns to the corresponding Syntax-Node operator. -/
theorem pyBinOp_refines (op : BinTag) (so : SpecOp) (hso : specOpOf op = some so)
    (x y : PyVal) (a b : ℚ) (hx : pyToRat x = some a) (hy : pyToRat y = some b)
    (q : ℚ) (hq : specBinOp so a b = some q) :
    ∃ v, pyBinOp op x y = some v ∧ pyToRat v = some q := by
  cases op <;> simp only [specOpOf, Option.some.injEq, reduceCtorEq] at hso <;>
    subst hso
  -- add
  · simp only [specBinOp, Option.some.injEq] at hq
    subst hq
    cases x <;> cases y <;>
      simp_all [pyToRat, pyBinOp, pyAdd, PyVal.isComplex, PyVal.ratOf]
  -- sub
  · simp only [specBinOp, Option.some.injEq] at hq
    subst hq
    cases x <;> cases y <;>
      simp_all [pyToRat, pyBinOp, pySub, PyVal.isComplex, PyVal.ratOf]
  -- mult
  · simp only [specBinOp, Option.some.injEq] at hq
    subst hq
    cases x <;> cases y <;>
      simp_all [pyToRat, pyBinOp, pyMul, PyVal.isComplex, PyVal.ratOf]
  -- div
  · by_cases hb : b = 0
    · simp [specBinOp, hb] at hq
    · simp only [specBinOp, hb, if_false, Option.some.injEq] at hq
      subst hq
      cases x with
      | vcomplex re im => simp [pyToRat] at hx
      | vint m =>
        cases y with
        | vcomplex re im => simp [pyToRat] at hy
        | vint n =>
          simp only [pyToRat, Option.some.injEq] at hx hy
          have hn : ¬ n = 0 := by
            intro h; apply hb; rw [← hy, h]; norm_num
          refine ⟨.vfloat (a / b), ?_, by simp [pyToRat]⟩
          simp [pyBinOp, pyDiv, PyVal.isComplex, PyVal.isZero, PyVal.ratOf,
            hn, hx, hy]
        | vfloat qy =>
          simp only [pyToRat, Option.some.injEq] at hx hy
          refine ⟨.vfloat (a / b), ?_, by simp [pyToRat]⟩
          simp [pyBinOp, pyDiv, PyVal.isComplex, PyVal.isZero, PyVal.ratOf,
            hb, hx, hy]
      | vfloat qx =>
        cases y with
        | vcomplex re im => simp [pyToRat] at hy
        | vint n =>
          simp only [pyToRat, Option.some.injEq] at hx hy
          have hn : ¬ n = 0 := by
            intro h; apply hb; rw [← hy, h]; norm_num
          refine ⟨.vfloat (a / b), ?_, by simp [pyToRat]⟩
          simp [pyBinOp, pyDiv, PyVal.isComplex, PyVal.isZero, PyVal.ratOf,
            hn, hx, hy]
        | vfloat qy =>
          simp only [pyToRat, Option.some.injEq] at hx hy
          refine ⟨.vfloat (a / b), ?_, by simp [pyToRat]⟩
          simp [pyBinOp, pyDiv, PyVal.isComplex, PyVal.isZero, PyVal.ratOf,
            hb, hx, hy]
  -- mod
  · by_cases hb : b = 0
    · simp [specBinOp, hb] at hq
    · simp only [specBinOp, hb, if_false, Option.some.injEq] at hq
      subst hq
      cases x with
      | vcomplex re im => simp [pyToRat] at hx
      | vint m =>
        cases y with
        | vcomplex re im => simp [pyToRat] at hy
        | vint n =>
          simp only [pyToRat, Option.some.injEq] at hx hy
          have hn : ¬ n = 0 := by
            intro h; apply hb; rw [← hy, h]; norm_num
          refine ⟨.vint (Int.fmod m n), ?_, ?_⟩
          · simp [pyBinOp, pyMod, PyVal.isComplex, PyVal.isZero, hn]
          · simp only [pyToRat, Option.some.injEq]
            rw [fmod_eq_floor m n hn, hx, hy]
        | vfloat qy =>
          simp only [pyToRat, Option.some.injEq] at hx hy
          refine ⟨.vfloat (a - b * (⌊a / b⌋ : ℤ)), ?_, by simp [pyToRat]⟩
          simp [pyBinOp, pyMod, PyVal.isComplex, PyVal.isZero, PyVal.ratOf,
            hb, hx, hy]
      | vfloat qx =>
        cases y with
        | vcomplex re im => simp [pyToRat] at hy
        | vint n =>
          simp only [pyToRat, Option.some.injEq] at hx hy
          have hn : ¬ n = 0 := by
            intro h; apply hb; rw [← hy, h]; norm_num
          refine ⟨.vfloat (a - b * (⌊a / b⌋ : ℤ)), ?_, by simp [pyToRat]⟩
          simp [pyBinOp, pyMod, PyVal.isComplex, PyVal.isZero, PyVal.ratOf,
            hn, hx, hy]
        | vfloat qy =>
          simp only [pyToRat, Option.some.injEq] at hx hy
          refine ⟨.vfloat (a - b * (⌊a / b⌋ : ℤ)), ?_, by simp [pyToRat]⟩
          simp [pyBinOp, pyMod, PyVal.isComplex, PyVal.isZero, PyVal.ratOf,
            hb, hx, hy]
  -- pow
  · by_cases hden : b.den = 1
    · by_cases hc : a = 0 ∧ b.num < 0
      · simp [specBinOp, hden, hc] at hq
      · simp only [specBinOp, hden, hc, if_true, if_false, Option.some.injEq] at hq
        subst hq
        cases x with
        | vcomplex re im => simp [pyToRat] at hx
        | vint m =>
          cases y with
          | vcomplex re im => simp [pyToRat] at hy
          | vint n =>
            simp only [pyToRat, Option.some.injEq] at hx hy
            have hnum : b.num = n := by rw [← hy, Rat.num_intCast]
            by_cases hn : 0 ≤ n
            · refine ⟨.vint (m ^ n.toNat), by simp [pyBinOp, pyPow, hn], ?_⟩
              simp only [pyToRat, Option.some.injEq]
              rw [intPow_cast m n hn, hx, hnum]
            · have hm : ¬ m = 0 := by
                intro h
                exact hc ⟨by rw [← hx, h]; norm_num, by omega⟩
              refine ⟨.vfloat ((m : ℚ) ^ n), by simp [pyBinOp, pyPow, hn, hm], ?_⟩
              simp only [pyToRat, Option.some.injEq]
              rw [hx, hnum]
          | vfloat qy =>
            simp only [pyToRat, Option.some.injEq] at hx hy
            subst hy
            have hcond : ¬ ((m : ℚ) = 0 ∧ qy.num < 0) := by rwa [hx]
            refine ⟨.vfloat ((m : ℚ) ^ qy.num), ?_, by simp [pyToRat, hx]⟩
            simp only [pyBinOp, pyPow, hden, if_true, qpow]
            rw [if_neg hcond]
            rfl
        | vfloat qx =>
          cases y with
          | vcomplex re im => simp [pyToRat] at hy
          | vint n =>
            simp only [pyToRat, Option.some.injEq] at hx hy
            have hnum : b.num = n := by rw [← hy, Rat.num_intCast]
            subst hx
            have hcond : ¬ (qx = 0 ∧ n < 0) := by rw [← hnum]; exact hc
            refine ⟨.vfloat (qx ^ n), ?_, ?_⟩
            · simp only [pyBinOp, pyPow, qpow]
              rw [if_neg hcond]
              rfl
            · simp only [pyToRat, Option.some.injEq]
              rw [hnum]
          | vfloat qy =>
            simp only [pyToRat, Option.some.injEq] at hx hy
            subst hx; subst hy
            refine ⟨.vfloat (qx ^ qy.num), ?_, by simp [pyToRat]⟩
            simp only [pyBinOp, pyPow, hden, if_true, qpow]
            rw [if_neg hc]
            rfl
    · simp [specBinOp, hden] at hq
  -- floordiv
  · by_cases hb : b = 0
    · simp [specBinOp, hb] at hq
    · simp only [specBinOp, hb, if_false, Option.some.injEq] at hq
      subst hq
      cases x with
      | vcomplex re im => simp [pyToRat] at hx
      | vint m =>
        cases y with
        | vcomplex re im => simp [pyToRat] at hy
        | vint n =>
          simp only [pyToRat, Option.some.injEq] at hx hy
          have hn : ¬ n = 0 := by
            intro h; apply hb; rw [← hy, h]; norm_num
          refine ⟨.vint (Int.fdiv m n), ?_, ?_⟩
          · simp [pyBinOp, pyFloorDiv, PyVal.isComplex, PyVal.isZero, hn]
          · simp only [pyToRat, Option.some.injEq]
            rw [fdiv_eq_floor m n hn, hx, hy]
        | vfloat qy =>
          simp only [pyToRat, Option.some.injEq] at hx hy
          refine ⟨.vfloat ((⌊a / b⌋ : ℤ) : ℚ), ?_, by simp [pyToRat]⟩
          simp [pyBinOp, pyFloorDiv, PyVal.isComplex, PyVal.isZero, PyVal.ratOf,
            hb, hx, hy]
      | vfloat qx =>
        cases y with
        | vcomplex re im => simp [pyToRat] at hy
        | vint n =>
          simp only [pyToRat, Option.some.injEq] at hx hy
          have hn : ¬ n = 0 := by
            intro h; apply hb; rw [← hy, h]; norm_num
          refine ⟨.vfloat ((⌊a / b⌋ : ℤ) : ℚ), ?_, by simp [pyToRat]⟩
          simp [pyBinOp, pyFloorDiv, PyVal.isComplex, PyVal.isZero, PyVal.ratOf,
            hn, hx, hy]
        | vfloat qy =>
          simp only [pyToRat, Option.some.injEq] at hx hy
          refine ⟨.vfloat ((⌊a / b⌋ : ℤ) : ℚ), ?_, by simp [pyToRat]⟩
          simp [pyBinOp, pyFloorDiv, PyVal.isComplex, PyVal.isZero, PyVal.ratOf,
            hb, hx, hy]

/-- A source operator with a spec counterpart is in `ALLOWED_OPERATORS`. -/
theorem specOpOf_allowed (op : BinTag) (so : SpecOp) (h : specOpOf op = some so) :
    allowedBin op = true := by
  cases op <;> simp_all [specOpOf, allowedBin]

/-- Negation commutes with the rational reading. -/
theorem pyNeg_rat (v : PyVal) (q : ℚ) (h : pyToRat v = some q) :
    pyToRat (pyNeg v) = some (-q) := by
  cases v <;> simp_all [pyToRat, pyNeg]

/-- Refinement: on a tree the spec translation accepts, whenever the
spec semantics produces a value, `_eval` succeeds with that same value. -/
theorem eval_refines_spec (a : Ast) : ∀ (sn : SyntaxNode) (q : ℚ),
    translateNode a = some sn → specEval sn = some q →
    ∃ v, pyEvalNode a = some v ∧ pyToRat v = some q := by
  induction a using Ast.inductionOn with
  | Expression body ih =>
    intro sn q ht hs
    have h := ih sn q (by simpa [translateNode] using ht) hs
    simpa [pyEvalNode] using h
  | Num v =>
    intro sn q ht hs
    cases v with
    | vint n =>
      simp only [translateNode, Option.some.injEq] at ht
      subst ht
      simp only [specEval, Option.some.injEq] at hs
      exact ⟨.vint n, by simp [pyEvalNode], by simp [pyToRat, hs]⟩
    | vfloat qq =>
      simp only [translateNode, Option.some.injEq] at ht
      subst ht
      simp only [specEval, Option.some.injEq] at hs
      exact ⟨.vfloat qq, by simp [pyEvalNode], by simp [pyToRat, hs]⟩
    | vcomplex re im =>
      simp [translateNode] at ht
  | BoolLit b => intro sn q ht hs; simp [translateNode] at ht
  | NoneLit => intro sn q ht hs; simp [translateNode] at ht
  | Str s => intro sn q ht hs; simp [translateNode] at ht
  | Name s => intro sn q ht hs; simp [translateNode] at ht
  | Call f args => intro sn q ht hs; simp [translateNode] at ht
  | Attribute o s => intro sn q ht hs; simp [translateNode] at ht
  | Compare l r => intro sn q ht hs; simp [translateNode] at ht
  | BoolOp l r => intro sn q ht hs; simp [translateNode] at ht
  | BinOp l op r ihl ihr =>
    intro sn q ht hs
    cases hso : specOpOf op with
    | none => simp [translateNode, hso] at ht
    | some so =>
      cases htl : translateNode l with
      | none => simp [translateNode, hso, htl] at ht
      | some sl =>
        cases htr : translateNode r with
        | none => simp [translateNode, hso, htl, htr] at ht
        | some sr =>
          simp only [translateNode, hso, htl, htr, Option.some.injEq] at ht
          subst ht
          simp only [specEval] at hs
          cases hsl : specEval sl with
          | none => rw [hsl] at hs; cases hsr : specEval sr <;> rw [hsr] at hs <;> simp at hs
          | some ql =>
            rw [hsl] at hs
            cases hsr : specEval sr with
            | none => rw [hsr] at hs; simp at hs
            | some qr =>
              rw [hsr] at hs
              obtain ⟨lv, hlv, hlrat⟩ := ihl sl ql htl hsl
              obtain ⟨rv, hrv, hrrat⟩ := ihr sr qr htr hsr
              obtain ⟨v, hv, hvr⟩ :=
                pyBinOp_refines op so hso lv rv ql qr hlrat hrrat q hs
              refine ⟨v, ?_, hvr⟩
              simp [pyEvalNode, specOpOf_allowed op so hso, hlv, hrv, hv]
  | UnaryOp op e ih =>
    intro sn q ht hs
    cases op with
    | usub =>
      cases hte : translateNode e with
      | none => simp [translateNode, hte] at ht
      | some se =>
        simp only [translateNode, hte, Option.map_some', Option.some.injEq] at ht
        subst ht
        simp only [specEval] at hs
        cases hse : specEval se with
        | none => rw [hse] at hs; simp at hs
        | some qe =>
          rw [hse] at hs
          simp only [Option.map_some', Option.some.injEq] at hs
          subst hs
          obtain ⟨v, hv, hvr⟩ := ih se qe hte hse
          refine ⟨pyNeg v, ?_, pyNeg_rat v qe hvr⟩
          simp [pyEvalNode, hv]
    | uadd => simp [translateNode] at ht
    | invert => simp [translateNode] at ht
    | notOp => simp [translateNode] at ht

/-- C1: for every input whose parse fails (e.g. multi-statement input) or
whose parse tree contains an identifier, function call, attribute access,
string literal, boolean or comparison operator, `evaluate` fails with
`EvaluationError`: it never executes any operation outside the fixed
arithmetic operator table and never returns a value for such input. -/
theorem evaluate_rejects_forbidden_constructs (s : String)
    (h : parseExpr s = none ∨
      ∃ a, parseExpr s = some a ∧ containsForbidden a = true) :
    safe_eval s = .error ("Invalid expression: " ++ s) := by
  rcases h with h | ⟨a, ha, hf⟩
  · simp [safe_eval, h]
  · simp [safe_eval, ha, eval_none_of_containsForbidden a hf]

/-- Witness for C1: the spec's hostile payload and the boolean-operator
expression `not 1` are both rejected. -/
theorem evaluate_rejects_forbidden_constructs_witness :
    safe_eval "__import__('os').system('ls')" =
      .error ("Invalid expression: " ++ "__import__('os').system('ls')") ∧
    safe_eval "not 1" = .error ("Invalid expression: " ++ "not 1") :=
  ⟨evaluate_rejects_forbidden_constructs "__import__('os').system('ls')"
    (Or.inr ⟨Ast.Expression (Ast.Call (Ast.Attribute (Ast.Call
        (Ast.Name "__import__") [Ast.Str "os"]) "system") [Ast.Str "ls"]),
      rfl, rfl⟩),
   evaluate_rejects_forbidden_constructs "not 1"
    (Or.inr ⟨Ast.Expression (Ast.UnaryOp UnTag.notOp (Ast.Num (PyVal.vint 1))),
      rfl, rfl⟩)⟩

/-- C2: every string that parses as a conventional arithmetic expression
built only from numeric literals, parentheses, unary minus and the allowed
binary operators (that is, a tree the spec's translation pass accepts)
evaluates to the mathematically correct value whenever the spec's exact
semantics assigns one. -/
theorem evaluate_arithmetic_correct (s : String) (a : Ast) (sn : SyntaxNode)
    (q : ℚ) (hp : parseExpr s = some a) (ht : translateNode a = some sn)
    (hs : specEval sn = some q) :
    ∃ v, safe_eval s = .ok v ∧ pyToRat v = some q := by
  obtain ⟨v, hv, hr⟩ := eval_refines_spec a sn q ht hs
  exact ⟨v, by simp [safe_eval, hp, hv], hr⟩

/-- Witness for C2 at `-(7)`, whose mathematical value is `-7`. -/
theorem evaluate_arithmetic_correct_witness :
    ∃ v, safe_eval "-(7)" = .ok v ∧ pyToRat v = some (-((7 : ℤ) : ℚ)) :=
  evaluate_arithmetic_correct "-(7)"
    (Ast.Expression (Ast.UnaryOp UnTag.usub (Ast.Num (PyVal.vint 7))))
    (SyntaxNode.UnaryOp (SyntaxNode.Literal ((7 : ℤ) : ℚ)))
    (-((7 : ℤ) : ℚ)) rfl rfl rfl

/-- C3: the spec's concrete scenarios hold: `2+3*5 = 17`, `2**10 = 1024`,
`7//2 = 3`, `7%2 = 1` and `-(3+4) = -7`, all as Python `int`s. -/
theorem evaluate_concrete_scenarios :
    safe_eval "2+3*5" = .ok (.vint 17) ∧
    safe_eval "2**10" = .ok (.vint 1024) ∧
    safe_eval "7//2" = .ok (.vint 3) ∧
    safe_eval "7%2" = .ok (.vint 1) ∧
    safe_eval "-(3+4)" = .ok (.vint (-7)) :=
  ⟨rfl, rfl, rfl, rfl, rfl⟩

/-- C4: every expression whose evaluation divides, takes modulo or
integer-divides by zero fails with `EvaluationError` rather than crashing
or propagating an uncaught arithmetic fault. -/
theorem evaluate_zero_division_errors (s : String) (a : Ast)
    (hp : parseExpr s = some a) (hz : zeroDivAt a = true) :
    safe_eval s = .error ("Invalid expression: " ++ s) := by
  simp [safe_eval, hp, eval_none_of_zeroDivAt a hz]

/-- Witness for C4 at the spec's scenario `1/0`. -/
theorem evaluate_zero_division_errors_witness :
    safe_eval "1/0" = .error ("Invalid expression: " ++ "1/0") :=
  evaluate_zero_division_errors "1/0"
    (Ast.Expression (Ast.BinOp (Ast.Num (PyVal.vint 1)) BinTag.div
      (Ast.Num (PyVal.vint 0))))
    rfl rfl

/-- C6: the empty string and every whitespace-only string fail with
`EvaluationError`. -/
theorem evaluate_blank_input_errors (s : String)
    (h : ∀ c ∈ s.data, isWS c = true) :
    safe_eval s = .error ("Invalid expression: " ++ s) := by
  simp [safe_eval, parseExpr_ws s h]

/-- Witness for C6 at the empty string and a one-space string. -/
theorem evaluate_blank_input_errors_witness :
    safe_eval "" = .error ("Invalid expression: " ++ "") ∧
    safe_eval " " = .error ("Invalid expression: " ++ " ") :=
  ⟨evaluate_blank_input_errors "" (by decide),
   evaluate_blank_input_errors " " (by decide)⟩

/-- C7: only binary operators in the allowed set and the unary-minus
operator are accepted during tree translation: any expression containing
a binary operator outside that set (bitwise, shift or matrix-multiply) or
a unary operator other than negation is rejected with `EvaluationError`. -/
theorem evaluate_rejects_unlisted_operators (s : String) (a : Ast)
    (hp : parseExpr s = some a) (hb : containsBadOp a = true) :
    safe_eval s = .error ("Invalid expression: " ++ s) := by
  simp [safe_eval, hp, eval_none_of_containsBadOp a hb]

/-- Witness for C7 at the bitwise expression `1|2`. -/
theorem evaluate_rejects_unlisted_operators_witness :
    safe_eval "1|2" = .error ("Invalid expression: " ++ "1|2") :=
  evaluate_rejects_unlisted_operators "1|2"
    (Ast.Expression (Ast.BinOp (Ast.Num (PyVal.vint 1)) BinTag.bitor
      (Ast.Num (PyVal.vint 2))))
    rfl (by simp [containsBadOp, allowedBin])

/-- C8: `evaluate` is pure and deterministic — it is modelled as a
function of the input string alone (the source reads only the constant
operator table and touches no other state), so two invocations on the
same string produce the same outcome. -/
theorem evaluate_deterministic (s t : String) (h : s = t) :
    safe_eval s = safe_eval t := by
  rw [h]

/-- Witness for C8 at `2+2`. -/
theorem evaluate_deterministic_witness :
    safe_eval "2+2" = safe_eval "2+2" :=
  evaluate_deterministic "2+2" "2+2" rfl

/-- C9: complex literals are accepted as numeric literals: `2j*2`
succeeds and returns the complex number `4j`, not a real float and not an
error, even though the declared result type is `float`. -/
theorem evaluate_complex_literal :
    safe_eval "2j*2" = .ok (.vcomplex 0 4) := by
  have hp : parseExpr "2j*2" = some (Ast.Expression (Ast.BinOp
      (Ast.Num (PyVal.vcomplex 0 2)) BinTag.mult (Ast.Num (PyVal.vint 2)))) := rfl
  simp only [safe_eval, hp, pyEvalNode, pyBinOp, pyMul, PyVal.isComplex, cmul,
    PyVal.cOf, allowedBin, if_true, Bool.true_or, Bool.or_true]
  norm_num

/-- C10: boolean literals are not numeric literals to the evaluator:
every expression whose tree contains `True` or `False` fails with
`EvaluationError`, even though Python's `bool` is a subclass of `int`. -/
theorem evaluate_rejects_boolean_literals (s : String) (a : Ast)
    (hp : parseExpr s = some a) (hb : containsBool a = true) :
    safe_eval s = .error ("Invalid expression: " ++ s) := by
  simp [safe_eval, hp, eval_none_of_containsBool a hb]

/-- Witness for C10 at `True`, `False` and `True+1`. -/
theorem evaluate_rejects_boolean_literals_witness :
    safe_eval "True" = .error ("Invalid expression: " ++ "True") ∧
    safe_eval "False" = .error ("Invalid expression: " ++ "False") ∧
    safe_eval "True+1" = .error ("Invalid expression: " ++ "True+1") :=
  ⟨evaluate_rejects_boolean_literals "True"
      (Ast.Expression (Ast.BoolLit true)) rfl (by simp [containsBool]),
   evaluate_rejects_boolean_literals "False"
      (Ast.Expression (Ast.BoolLit false)) rfl (by simp [containsBool]),
   evaluate_rejects_boolean_literals "True+1"
      (Ast.Expression (Ast.BinOp (Ast.BoolLit true) BinTag.add
        (Ast.Num (PyVal.vint 1)))) rfl (by simp [containsBool])⟩
